import Mathlib

/-!
Verification of the FourierPrefetch design (src/prefetcher/fourier/).

The repository holds the data-structure skeleton `fourier.h` and the design
document `DESIGN.md`, whose pseudocode for `prefetcher_cache_operate`
(DESIGN.md lines 56-94) defines the algorithm.  The implementation file
`fourier.cc` and the parameter header `fourier_parameters.h` are listed under
"Files to Create" and are not present in the repository, so the step function
below is a shallow embedding of the DESIGN.md pseudocode, with the points the
pseudocode leaves open resolved the way the specification resolves them
(each such point is marked `Modelled from the spec:` at its definition).

Modelling conventions:
- machine integers are `Nat`/`Int`; the `uint64` prefetch target is reduced
  `% 2^64`; the `int16_t` deltas are wrapped with `wrap16`;
- the C++ `float` Goertzel arithmetic is idealized as exact arithmetic over
  the decimal coefficient table that DESIGN.md line 48 lists
  (`{-2.0, -1.0, 0.0, 1.0, 1.4142, 1.7321}`).  All six per-period powers over
  one 24-sample buffer share the common denominator `SCALE^(2N-2)`, so each
  power is represented exactly by its integer numerator at that denominator
  (`goertzelNum`), which preserves every comparison between powers and against
  a (similarly scaled) threshold;
- `POWER_THRESHOLD` has no value anywhere in the repository
  (`fourier_parameters.h` is only planned), so it is an explicit argument
  `thr` of the step function;
- the host-simulator constants are ChampSim defaults: 64-byte cache lines and
  4 KiB pages; the MSHR occupancy query is an argument `occ`.
-/

/-! ## Constants (fourier.h lines 9-10, DESIGN.md lines 26-48) -/

def DELTA_BUFF_SIZE : Nat := 24

def FREQ_BINS_SIZE : Nat := 6

def MAX_PERIOD : Nat := 12

def TRACKER_TABLE_SIZE : Nat := 256

def STABILITY_REQUIRED : Nat := 3

def CONF_MAX : Nat := 7

def CONF_ISSUE_MIN : Nat := 3

def CONF_L1_MIN : Nat := 5

def LOG2_BLOCK_SIZE : Nat := 6

def BLOCK_SIZE : Nat := 64

def LOG2_PAGE_SIZE : Nat := 12

/-- Candidate periods tested by the analyzer (DESIGN.md line 46). -/
def FREQ_PERIODS : List Nat := [2, 3, 4, 6, 8, 12]

/-- Scale used to represent the decimal Goertzel coefficients exactly:
`coeff(P) * SCALE` is an integer for every table entry of DESIGN.md line 48. -/
def SCALE : Int := 10000

/-- Goertzel coefficients of DESIGN.md line 48, times `SCALE`:
the table `{-2.0, -1.0, 0.0, 1.0, 1.4142, 1.7321}` for periods 2,3,4,6,8,12. -/
def coeffN : Nat → Int
  | 2 => -20000
  | 3 => -10000
  | 4 => 0
  | 6 => 10000
  | 8 => 14142
  | 12 => 17321
  | _ => 0

/-! ## Data model (fourier.h lines 31-39, DESIGN.md lines 22-38) -/

/-- Per-IP tracker entry, after `fourier_entry` of DESIGN.md lines 23-36.
The circular buffer `delta_buf`/`buf_head`/`buf_count` is represented by the
list of its valid elements in chronological order (oldest first, length
`buf_count ≤ 24`); the `pattern` array keeps its full length 12, stale slots
included. -/
structure FourierEntry where
  ip_tag : Nat
  last_cl_addr : Nat
  deltas : List Int
  pattern : List Int
  period : Nat
  phase : Nat
  confidence : Nat
  stability : Nat
  last_prediction : Int
  has_prediction : Bool
  access_cnt : Nat
deriving DecidableEq, Repr

/-- Prefetch request emitted to the cache: target byte address and whether it
fills the near level (L1). -/
structure PrefetchRequest where
  target : Nat
  fillL1 : Bool
deriving DecidableEq, Repr

/-- Zero-initialized entry allocated on the first access of an IP
(DESIGN.md line 59-62: the entry stores the hashed ip and the current
cache-line address; everything else starts at zero). -/
def freshEntry (tag cl : Nat) : FourierEntry :=
  { ip_tag := tag
    last_cl_addr := cl
    deltas := []
    pattern := List.replicate MAX_PERIOD 0
    period := 0
    phase := 0
    confidence := 0
    stability := 0
    last_prediction := 0
    has_prediction := false
    access_cnt := 0 }

/-- IP hash of DESIGN.md line 59: `ip ^ (ip >> 2) ^ (ip >> 5)`. -/
def hashIP (ip : Nat) : Nat := ip ^^^ (ip >>> 2) ^^^ (ip >>> 5)

/-- Wrap of a signed value into `int16_t`, as storing into `delta_buf`
(DESIGN.md line 26) does. -/
def wrap16 (d : Int) : Int := (d + 32768) % 65536 - 32768

/-! ## DeltaBuffer operations (spec 4.2, DESIGN.md lines 26-28 and 63) -/

/-- Append a delta, overwriting the oldest slot once the buffer holds
`DELTA_BUFF_SIZE` elements. -/
def pushDelta (buf : List Int) (d : Int) : List Int :=
  if buf.length < DELTA_BUFF_SIZE then buf ++ [d] else buf.tail ++ [d]

/-- The `k` most recent deltas in chronological order (oldest first). -/
def lastK (buf : List Int) (k : Nat) : List Int := buf.drop (buf.length - k)

/-- Stride fast-path test of DESIGN.md line 71: the last 4 deltas are
identical and nonzero. -/
def fastPathReady (buf : List Int) : Bool :=
  match lastK buf 4 with
  | [a, b, c, d] => a == b && b == c && c == d && !(d == 0)
  | _ => false

/-! ## Goertzel analyzer (DESIGN.md lines 105-121, spec 4.3)

With coefficient `c/SCALE`, running the real-valued recurrence
`s_i = x_i + (c/SCALE) * s_(i-1) - s_(i-2)` and scaling `u_i = s_i * SCALE^i`
gives the integer recurrence `u_i = x_i * SCALE^i + c * u_(i-1) -
SCALE^2 * u_(i-2)`.  The final power `s0^2 + s1^2 - (c/SCALE) * s0 * s1`
equals `(u0^2 + SCALE^2 * u1^2 - c * u0 * u1) / SCALE^(2N-2)`; as every
candidate period is evaluated over the same buffer, the denominator is shared
and the returned numerator compares exactly like the real power. -/

/-- Integer numerator of the Goertzel power at scaled coefficient `c`, over
the buffer in chronological order. -/
def goertzelNum (buf : List Int) (c : Int) : Int :=
  let st := buf.foldl
    (fun (s : Int × Int × Int) x =>
      (x * s.2.2 + c * s.1 - SCALE * SCALE * s.2.1, s.1, s.2.2 * SCALE))
    (0, 0, 1)
  st.1 * st.1 + SCALE * SCALE * st.2.1 * st.2.1 - c * st.1 * st.2.1

/-- Modelled from the spec: `detect()` itself lives in the absent
`fourier.cc`; spec 4.3 fixes it as a strict argmax over all six candidate
periods with ties resolved to the smaller period, which the in-order fold
with a strictly-greater update realizes (DESIGN.md line 79:
`best_period = P with highest power`). -/
def detect (buf : List Int) : Nat × Int :=
  FREQ_PERIODS.foldl
    (fun best p =>
      let w := goertzelNum buf (coeffN p)
      if best.2 < w then (p, w) else best)
    (2, goertzelNum buf (coeffN 2))

/-! ## Confidence check (DESIGN.md lines 64-68, spec 4.6) -/

/-- Clear the pattern-replay state back to unlocked (DESIGN.md line 68
`reset period and stability`; spec 4.6 also clears the pattern). -/
def hardReset (e : FourierEntry) : FourierEntry :=
  { e with period := 0, stability := 0, phase := 0
           pattern := List.replicate MAX_PERIOD 0 }

/-- Verification of the previous round's prediction against the delta just
observed (DESIGN.md lines 64-68): skipped without a pending prediction;
match saturates `confidence` at 7; mismatch floors `confidence - 2` at 0 and,
when the result is exactly 0, hard-resets the replay state. -/
def verifyPrediction (e : FourierEntry) (d : Int) : FourierEntry :=
  if e.has_prediction then
    if d == e.last_prediction then
      { e with confidence := min (e.confidence + 1) CONF_MAX }
    else
      let c := e.confidence - 2
      if c = 0 then hardReset { e with confidence := c }
      else { e with confidence := c }
  else e

/-! ## Spectral update (DESIGN.md lines 75-85, spec 4.5) -/

/-- Period/stability/pattern update from one spectral round over the full
buffer (DESIGN.md lines 80-84): below the power threshold nothing changes;
otherwise an agreeing detection bumps `stability`, a disagreeing one switches
`period` and restarts `stability` at 1, and once
`stability ≥ STABILITY_REQUIRED` the last `best_period` deltas are extracted
into `pattern` (chronological order) and `phase` resets to 0. -/
def spectralUpdate (thr : Int) (buf : List Int) (e : FourierEntry) :
    FourierEntry :=
  let bp := (detect buf).1
  let bw := (detect buf).2
  if thr < bw then
    let e1 :=
      if bp = e.period then { e with stability := e.stability + 1 }
      else { e with period := bp, stability := 1 }
    if STABILITY_REQUIRED ≤ e1.stability then
      { e1 with pattern := lastK buf bp ++ e1.pattern.drop bp, phase := 0 }
    else e1
  else e

/-- Modelled from the spec: replay-path prediction.  DESIGN.md line 85 writes
`predicted_delta = pattern[phase % period]` only inside the spectral round and
leaves the other rounds implicit; spec 4.5/4.7 make `predicted_delta`
available on every round while `period != 0` and unavailable otherwise. -/
def replayPredict (e : FourierEntry) : Option Int :=
  if e.period ≠ 0 then some (e.pattern.getD (e.phase % e.period) 0) else none

/-! ## One access of one entry (DESIGN.md lines 56-94) -/

/-- Cache-line address of a byte address. -/
def cacheLineOf (addr : Nat) : Nat := addr >>> LOG2_BLOCK_SIZE

/-- Delta observed for this access: current minus previous cache-line
address (DESIGN.md line 61), stored as `int16_t`. -/
def observedDelta (e : FourierEntry) (addr : Nat) : Int :=
  wrap16 ((cacheLineOf addr : Int) - (e.last_cl_addr : Int))

/-- Buffer contents after appending the observed delta. -/
def pushedBuf (e : FourierEntry) (addr : Nat) : List Int :=
  pushDelta e.deltas (observedDelta e addr)

/-- Steps 3-4 of DESIGN.md: append the observed delta to the circular buffer
and update `last_cl_addr`; the per-entry access counter that drives the
every-4th spectral cadence advances here.  Modelled from the spec: the
cadence counter runs continuously per entry (spec 9 leaves the alternative
open). -/
def entryAfterPush (e : FourierEntry) (addr : Nat) : FourierEntry :=
  { e with last_cl_addr := cacheLineOf addr, deltas := pushedBuf e addr
           access_cnt := e.access_cnt + 1 }

/-- Steps 5-7 of DESIGN.md over the pushed entry: verify the pending
prediction, run the (rate-limited) spectral analysis unless the fast path
bypasses it (spec 4.4: the fast path skips the spectral machinery entirely),
and produce the predicted delta: the repeated stride if the fast path is
ready, else the replay prediction. -/
def preGate (thr : Int) (e : FourierEntry) (addr : Nat) :
    FourierEntry × Option Int :=
  let e1 := verifyPrediction (entryAfterPush e addr) (observedDelta e addr)
  let e2 :=
    if fastPathReady (pushedBuf e addr) then e1
    else if DELTA_BUFF_SIZE ≤ (pushedBuf e addr).length ∧
            (e.access_cnt + 1) % 4 = 0 then
      spectralUpdate thr (pushedBuf e addr) e1
    else e1
  (e2, if fastPathReady (pushedBuf e addr) then some (observedDelta e addr)
       else replayPredict e2)

/-- Step 8 of DESIGN.md: the prefetch gate.  Withhold (clearing
`has_prediction`, spec 4.7 step 2) when no delta is predicted or
`confidence < 3`; compute the target, withhold on a page crossing; otherwise
emit one request (near level iff `confidence ≥ 5` and the occupancy is below
one half), record the prediction for next-round verification, and advance the
phase when the replay path produced the prediction. -/
def applyGate (occ : ℚ) (addr : Nat) (e2 : FourierEntry)
    (predDelta : Option Int) : FourierEntry × Option PrefetchRequest :=
  match predDelta with
  | none => ({ e2 with has_prediction := false }, none)
  | some p =>
    if e2.confidence < CONF_ISSUE_MIN then
      ({ e2 with has_prediction := false }, none)
    else
      let target := (((addr : Int) + p * (BLOCK_SIZE : Int)) % (2 ^ 64)).toNat
      if target >>> LOG2_PAGE_SIZE = addr >>> LOG2_PAGE_SIZE then
        ({ e2 with last_prediction := p, has_prediction := true
                   phase := if fastPathReady e2.deltas then e2.phase
                            else (e2.phase + 1) % e2.period },
         some { target := target
                fillL1 := decide (CONF_L1_MIN ≤ e2.confidence) &&
                          decide (occ < mkRat 1 2) })
      else ({ e2 with has_prediction := false }, none)

/-- One access event of one (already resolved) tracker entry. -/
def operateStep (thr : Int) (occ : ℚ) (e : FourierEntry) (addr : Nat) :
    FourierEntry × Option PrefetchRequest :=
  applyGate occ addr (preGate thr e addr).1 (preGate thr e addr).2

/-! ## Tracker table (DESIGN.md lines 40-43 and 59-60, spec 4.1)

The `std::map` keyed by hashed IP plus the FIFO `std::queue` are represented
together by one list of entries in insertion order, oldest first; a hit
updates the entry in place and does not move it. -/

/-- Run the access against the entry with the given tag, if present;
`none` when the tag is not in the table. -/
def operateExisting (thr : Int) (occ : ℚ) (key addr : Nat) :
    List FourierEntry → Option (List FourierEntry × Option PrefetchRequest)
  | [] => none
  | en :: rest =>
    if en.ip_tag == key then
      some ((operateStep thr occ en addr).1 :: rest,
            (operateStep thr occ en addr).2)
    else
      match operateExisting thr occ key addr rest with
      | some (rest', r) => some (en :: rest', r)
      | none => none

/-- `prefetcher_cache_operate(addr, ip, cache_hit)` (DESIGN.md lines 56-62):
hash the IP, run the access against the existing entry, or allocate a fresh
one — evicting the earliest-inserted entry first when the table is at
capacity (FIFO).  A first access only records the cache-line address and
emits nothing. -/
def cacheOperate (thr : Int) (occ : ℚ) (tbl : List FourierEntry)
    (addr ip : Nat) (_cacheHit : Bool) :
    List FourierEntry × Option PrefetchRequest :=
  match operateExisting thr occ (hashIP ip) addr tbl with
  | some res => res
  | none =>
    let tbl' := if TRACKER_TABLE_SIZE ≤ tbl.length then tbl.tail else tbl
    (tbl' ++ [freshEntry (hashIP ip) (cacheLineOf addr)], none)

/-! ## Runners for concrete scenarios -/

/-- Drive one entry through a list of byte addresses, keeping the entry. -/
def runEntry (thr : Int) (occ : ℚ) (e : FourierEntry) (addrs : List Nat) :
    FourierEntry :=
  addrs.foldl (fun ec a => (operateStep thr occ ec a).1) e

/-- Drive the whole table through `(addr, ip)` events, collecting the
emitted request of every event in order. -/
def runTableOuts (thr : Int) (occ : ℚ) :
    List FourierEntry → List (Nat × Nat) →
    List FourierEntry × List (Option PrefetchRequest)
  | tbl, [] => (tbl, [])
  | tbl, (addr, ip) :: rest =>
    let step := cacheOperate thr occ tbl addr ip false
    let next := runTableOuts thr occ step.1 rest
    (next.1, step.2 :: next.2)

/-! ## Buffer-only view of an entry

The delta buffer, cadence counter and last cache-line address evolve
independently of `thr`, `occ` and the lock/confidence state; this view makes
that explicit, so that spectral rounds of a concrete access stream can be
evaluated once and reused for every threshold. -/

/-- The components of an entry that the access stream alone determines. -/
structure BufView where
  last_cl : Nat
  buf : List Int
  cnt : Nat
deriving DecidableEq, Repr

/-- Buffer-only projection of an entry. -/
def bufProj (e : FourierEntry) : BufView :=
  { last_cl := e.last_cl_addr, buf := e.deltas, cnt := e.access_cnt }

/-- Buffer-only dynamics of one access. -/
def bufStep (b : BufView) (addr : Nat) : BufView :=
  { last_cl := cacheLineOf addr
    buf := pushDelta b.buf (wrap16 ((cacheLineOf addr : Int) - (b.last_cl : Int)))
    cnt := b.cnt + 1 }

/-- Checker simulating the buffer dynamics along an access stream: at every
step on which the spectral analysis would run (buffer full, every-4th
cadence, fast path not ready), the detected best period lies in `S`. -/
def spectralBestsIn (S : List Nat) : BufView → List Nat → Bool
  | _, [] => true
  | b, a :: rest =>
    (if fastPathReady (bufStep b a).buf then true
     else if DELTA_BUFF_SIZE ≤ (bufStep b a).buf.length ∧ (bufStep b a).cnt % 4 = 0
     then decide ((detect (bufStep b a).buf).1 ∈ S) else true) &&
    spectralBestsIn S (bufStep b a) rest

/-! ## Reachable tables

Tables reachable from the empty initial table under arbitrary access streams
of the running program (fixed threshold, per-access occupancy and inputs). -/

inductive ReachableTable (thr : Int) : List FourierEntry → Prop
  | base : ReachableTable thr []
  | step (occ : ℚ) (tbl : List FourierEntry) (addr ip : Nat) (hit : Bool) :
      ReachableTable thr tbl →
      ReachableTable thr (cacheOperate thr occ tbl addr ip hit).1

/-! ## Concrete scenario inputs -/

/-- Cache-line offsets of one cycle of the period-8 scenario stream. -/
def c1off (k : Nat) : Nat := [0, 5, 5, 10, 10, 15, 15, 20].getD k 0

/-- Byte addresses of accesses 2..44 of the period-8 stream: the cache-line
addresses cycle `1000, 1005, 1005, 1010, 1010, 1015, 1015, 1020`, producing
the exactly period-8 delta stream `5, 0, 5, 0, 5, 0, 5, -20` repeating. -/
def c1addrs : List Nat := (List.range 43).map (fun i => 64 * (1000 + c1off ((i + 1) % 8)))

/-- Entry state after the first access of the period-8 stream. -/
def c1start : FourierEntry := freshEntry 0 1000

/-- The five constant-stride accesses of the fast-path scenario: one IP,
byte addresses with cache-line deltas `4, 4, 4, 4`. -/
def c6events : List (Nat × Nat) := [(0, 0), (256, 0), (512, 0), (768, 0), (1024, 0)]

/-- Entry locked on period 2 with confidence 5 and a pending prediction of 7,
about to observe three consecutive deltas of 1 (addresses 6464, 6528, 6592). -/
def c4entry : FourierEntry :=
  { ip_tag := 0, last_cl_addr := 100, deltas := [0, 0, 0]
    pattern := [7, 9] ++ List.replicate 10 0, period := 2, phase := 0
    confidence := 5, stability := 3, last_prediction := 7
    has_prediction := true, access_cnt := 0 }

/-- Entry one delta short of the stride fast path at confidence 3, used to
exercise an emission through the page check. -/
def c2entry : FourierEntry :=
  { ip_tag := hashIP 5, last_cl_addr := 99, deltas := [1, 1, 1]
    pattern := List.replicate 12 0, period := 0, phase := 0
    confidence := 3, stability := 0, last_prediction := 0
    has_prediction := false, access_cnt := 0 }

/-- Entry with a pending mispredicted prediction at confidence 1: the next
mismatch lands confidence at exactly 0 and must hard-reset the lock state. -/
def c4resetEntry : FourierEntry :=
  { ip_tag := 0, last_cl_addr := 100, deltas := [0, 0, 0]
    pattern := [7, 9] ++ List.replicate 10 0, period := 2, phase := 0
    confidence := 1, stability := 3, last_prediction := 7
    has_prediction := true, access_cnt := 0 }

/-- Full table whose 256 entries carry tags `0..255`, inserted in tag order. -/
def c5table : List FourierEntry := (List.range TRACKER_TABLE_SIZE).map (fun k => freshEntry k 0)

/-! ## Basic facts about the step function -/

@[simp] theorem hardReset_confidence (e : FourierEntry) :
    (hardReset e).confidence = e.confidence := rfl

@[simp] theorem hardReset_deltas (e : FourierEntry) :
    (hardReset e).deltas = e.deltas := rfl

@[simp] theorem hardReset_has_prediction (e : FourierEntry) :
    (hardReset e).has_prediction = e.has_prediction := rfl

@[simp] theorem verifyPrediction_deltas (e : FourierEntry) (d : Int) :
    (verifyPrediction e d).deltas = e.deltas := by
  dsimp only [verifyPrediction, hardReset]; split_ifs <;> rfl

@[simp] theorem verifyPrediction_last_cl_addr (e : FourierEntry) (d : Int) :
    (verifyPrediction e d).last_cl_addr = e.last_cl_addr := by
  dsimp only [verifyPrediction, hardReset]; split_ifs <;> rfl

@[simp] theorem verifyPrediction_access_cnt (e : FourierEntry) (d : Int) :
    (verifyPrediction e d).access_cnt = e.access_cnt := by
  dsimp only [verifyPrediction, hardReset]; split_ifs <;> rfl

@[simp] theorem verifyPrediction_ip_tag (e : FourierEntry) (d : Int) :
    (verifyPrediction e d).ip_tag = e.ip_tag := by
  dsimp only [verifyPrediction, hardReset]; split_ifs <;> rfl

@[simp] theorem verifyPrediction_has_prediction (e : FourierEntry) (d : Int) :
    (verifyPrediction e d).has_prediction = e.has_prediction := by
  dsimp only [verifyPrediction, hardReset]; split_ifs <;> rfl

theorem verifyPrediction_of_not_pending (e : FourierEntry) (d : Int)
    (h : e.has_prediction = false) : verifyPrediction e d = e := by
  unfold verifyPrediction; rw [h]; simp

theorem verifyPrediction_confidence_le (e : FourierEntry) (d : Int)
    (h : e.confidence ≤ CONF_MAX) :
    (verifyPrediction e d).confidence ≤ CONF_MAX := by
  dsimp only [verifyPrediction, hardReset]
  split_ifs <;> simp_all [CONF_MAX] <;> omega

theorem verifyPrediction_period_cases (e : FourierEntry) (d : Int) :
    (verifyPrediction e d).period = e.period ∧
      (verifyPrediction e d).stability = e.stability ∨
    (verifyPrediction e d).period = 0 ∧ (verifyPrediction e d).stability = 0 ∧
      (verifyPrediction e d).confidence = 0 := by
  dsimp only [verifyPrediction, hardReset]
  split_ifs with h1 h2 h3 <;> simp_all

@[simp] theorem spectralUpdate_confidence (thr : Int) (buf : List Int)
    (e : FourierEntry) : (spectralUpdate thr buf e).confidence = e.confidence := by
  dsimp only [spectralUpdate]; split_ifs <;> rfl

@[simp] theorem spectralUpdate_has_prediction (thr : Int) (buf : List Int)
    (e : FourierEntry) :
    (spectralUpdate thr buf e).has_prediction = e.has_prediction := by
  dsimp only [spectralUpdate]; split_ifs <;> rfl

@[simp] theorem spectralUpdate_deltas (thr : Int) (buf : List Int)
    (e : FourierEntry) : (spectralUpdate thr buf e).deltas = e.deltas := by
  dsimp only [spectralUpdate]; split_ifs <;> rfl

@[simp] theorem spectralUpdate_last_cl_addr (thr : Int) (buf : List Int)
    (e : FourierEntry) :
    (spectralUpdate thr buf e).last_cl_addr = e.last_cl_addr := by
  dsimp only [spectralUpdate]; split_ifs <;> rfl

@[simp] theorem spectralUpdate_access_cnt (thr : Int) (buf : List Int)
    (e : FourierEntry) :
    (spectralUpdate thr buf e).access_cnt = e.access_cnt := by
  dsimp only [spectralUpdate]; split_ifs <;> rfl

@[simp] theorem spectralUpdate_ip_tag (thr : Int) (buf : List Int)
    (e : FourierEntry) : (spectralUpdate thr buf e).ip_tag = e.ip_tag := by
  dsimp only [spectralUpdate]; split_ifs <;> rfl

theorem spectralUpdate_period_cases (thr : Int) (buf : List Int)
    (e : FourierEntry) :
    (spectralUpdate thr buf e).period = e.period ∨
    (spectralUpdate thr buf e).period = (detect buf).1 := by
  dsimp only [spectralUpdate]; split_ifs <;> simp

theorem spectralUpdate_stability_cases (thr : Int) (buf : List Int)
    (e : FourierEntry) :
    (spectralUpdate thr buf e).stability = e.stability ∨
    (spectralUpdate thr buf e).stability = e.stability + 1 ∨
    ((spectralUpdate thr buf e).stability = 1 ∧
     (spectralUpdate thr buf e).period ≠ e.period ∧
     (spectralUpdate thr buf e).period = (detect buf).1) := by
  dsimp only [spectralUpdate]; split_ifs <;> simp_all

@[simp] theorem applyGate_period (occ : ℚ) (addr : Nat) (e2 : FourierEntry)
    (p : Option Int) : (applyGate occ addr e2 p).1.period = e2.period := by
  cases p <;> dsimp only [applyGate] <;> (try split_ifs) <;> rfl

@[simp] theorem applyGate_stability (occ : ℚ) (addr : Nat) (e2 : FourierEntry)
    (p : Option Int) : (applyGate occ addr e2 p).1.stability = e2.stability := by
  cases p <;> dsimp only [applyGate] <;> (try split_ifs) <;> rfl

@[simp] theorem applyGate_confidence (occ : ℚ) (addr : Nat) (e2 : FourierEntry)
    (p : Option Int) : (applyGate occ addr e2 p).1.confidence = e2.confidence := by
  cases p <;> dsimp only [applyGate] <;> (try split_ifs) <;> rfl

@[simp] theorem applyGate_deltas (occ : ℚ) (addr : Nat) (e2 : FourierEntry)
    (p : Option Int) : (applyGate occ addr e2 p).1.deltas = e2.deltas := by
  cases p <;> dsimp only [applyGate] <;> (try split_ifs) <;> rfl

@[simp] theorem applyGate_last_cl_addr (occ : ℚ) (addr : Nat) (e2 : FourierEntry)
    (p : Option Int) : (applyGate occ addr e2 p).1.last_cl_addr = e2.last_cl_addr := by
  cases p <;> dsimp only [applyGate] <;> (try split_ifs) <;> rfl

@[simp] theorem applyGate_access_cnt (occ : ℚ) (addr : Nat) (e2 : FourierEntry)
    (p : Option Int) : (applyGate occ addr e2 p).1.access_cnt = e2.access_cnt := by
  cases p <;> dsimp only [applyGate] <;> (try split_ifs) <;> rfl

@[simp] theorem applyGate_ip_tag (occ : ℚ) (addr : Nat) (e2 : FourierEntry)
    (p : Option Int) : (applyGate occ addr e2 p).1.ip_tag = e2.ip_tag := by
  cases p <;> dsimp only [applyGate] <;> (try split_ifs) <;> rfl

@[simp] theorem applyGate_pattern (occ : ℚ) (addr : Nat) (e2 : FourierEntry)
    (p : Option Int) : (applyGate occ addr e2 p).1.pattern = e2.pattern := by
  cases p <;> dsimp only [applyGate] <;> (try split_ifs) <;> rfl

theorem preGate_deltas (thr : Int) (e : FourierEntry) (addr : Nat) :
    (preGate thr e addr).1.deltas = pushedBuf e addr := by
  dsimp only [preGate, entryAfterPush]; split_ifs <;> simp

theorem preGate_last_cl_addr (thr : Int) (e : FourierEntry) (addr : Nat) :
    (preGate thr e addr).1.last_cl_addr = cacheLineOf addr := by
  dsimp only [preGate, entryAfterPush]; split_ifs <;> simp

theorem preGate_access_cnt (thr : Int) (e : FourierEntry) (addr : Nat) :
    (preGate thr e addr).1.access_cnt = e.access_cnt + 1 := by
  dsimp only [preGate, entryAfterPush]; split_ifs <;> simp

theorem preGate_ip_tag (thr : Int) (e : FourierEntry) (addr : Nat) :
    (preGate thr e addr).1.ip_tag = e.ip_tag := by
  dsimp only [preGate, entryAfterPush]; split_ifs <;> simp

@[simp] theorem operateStep_deltas (thr : Int) (occ : ℚ) (e : FourierEntry)
    (addr : Nat) : (operateStep thr occ e addr).1.deltas = pushedBuf e addr := by
  unfold operateStep; rw [applyGate_deltas, preGate_deltas]

@[simp] theorem operateStep_last_cl_addr (thr : Int) (occ : ℚ) (e : FourierEntry)
    (addr : Nat) :
    (operateStep thr occ e addr).1.last_cl_addr = cacheLineOf addr := by
  unfold operateStep; rw [applyGate_last_cl_addr, preGate_last_cl_addr]

@[simp] theorem operateStep_access_cnt (thr : Int) (occ : ℚ) (e : FourierEntry)
    (addr : Nat) :
    (operateStep thr occ e addr).1.access_cnt = e.access_cnt + 1 := by
  unfold operateStep; rw [applyGate_access_cnt, preGate_access_cnt]

@[simp] theorem operateStep_ip_tag (thr : Int) (occ : ℚ) (e : FourierEntry)
    (addr : Nat) : (operateStep thr occ e addr).1.ip_tag = e.ip_tag := by
  unfold operateStep; rw [applyGate_ip_tag, preGate_ip_tag]

theorem entryAfterPush_has_prediction (e : FourierEntry) (addr : Nat) :
    (entryAfterPush e addr).has_prediction = e.has_prediction := rfl

theorem entryAfterPush_confidence (e : FourierEntry) (addr : Nat) :
    (entryAfterPush e addr).confidence = e.confidence := rfl

theorem entryAfterPush_period (e : FourierEntry) (addr : Nat) :
    (entryAfterPush e addr).period = e.period := rfl

theorem entryAfterPush_stability (e : FourierEntry) (addr : Nat) :
    (entryAfterPush e addr).stability = e.stability := rfl

theorem operateStep_bufProj (thr : Int) (occ : ℚ) (e : FourierEntry)
    (addr : Nat) :
    bufProj (operateStep thr occ e addr).1 = bufStep (bufProj e) addr := by
  simp [bufProj, bufStep, pushedBuf, observedDelta]

theorem preGate_cold (thr : Int) (e : FourierEntry) (addr : Nat)
    (hp : e.has_prediction = false) :
    (preGate thr e addr).1.confidence = e.confidence ∧
    (preGate thr e addr).1.has_prediction = false := by
  have hv : verifyPrediction (entryAfterPush e addr) (observedDelta e addr) =
      entryAfterPush e addr :=
    verifyPrediction_of_not_pending _ _ hp
  dsimp only [preGate]
  split_ifs <;> rw [hv] <;>
    simp [entryAfterPush_confidence, entryAfterPush_has_prediction, hp]

/-- With no pending prediction and zero confidence, one access leaves the
confidence at zero, the pending-prediction flag cleared, and emits nothing:
the gate requires `confidence ≥ 3` and records a pending prediction only on
emission, so the cold state is absorbing. -/
theorem operateStep_cold (thr : Int) (occ : ℚ) (e : FourierEntry) (addr : Nat)
    (hc : e.confidence = 0) (hp : e.has_prediction = false) :
    (operateStep thr occ e addr).1.confidence = 0 ∧
    (operateStep thr occ e addr).1.has_prediction = false ∧
    (operateStep thr occ e addr).2 = none := by
  obtain ⟨h1, h2⟩ := preGate_cold thr e addr hp
  unfold operateStep
  cases hpred : (preGate thr e addr).2 with
  | none => simp [applyGate, h1, h2, hc]
  | some p => simp [applyGate, h1, hc, CONF_ISSUE_MIN]

theorem preGate_period_mem (thr : Int) (e : FourierEntry) (addr : Nat) :
    (preGate thr e addr).1.period = e.period ∨
    (preGate thr e addr).1.period = 0 ∨
    (fastPathReady (pushedBuf e addr) = false ∧
     (DELTA_BUFF_SIZE ≤ (pushedBuf e addr).length ∧
      (e.access_cnt + 1) % 4 = 0) ∧
     (preGate thr e addr).1.period = (detect (pushedBuf e addr)).1) := by
  dsimp only [preGate]
  split_ifs with hf hg
  · rcases verifyPrediction_period_cases (entryAfterPush e addr)
        (observedDelta e addr) with ⟨h, -⟩ | ⟨h, -, -⟩
    · left; rw [h]; rfl
    · right; left; exact h
  · rcases spectralUpdate_period_cases thr (pushedBuf e addr)
        (verifyPrediction (entryAfterPush e addr) (observedDelta e addr)) with
      h | h
    · rw [h]
      rcases verifyPrediction_period_cases (entryAfterPush e addr)
          (observedDelta e addr) with ⟨h', -⟩ | ⟨h', -, -⟩
      · left; rw [h']; rfl
      · right; left; exact h'
    · right; right
      exact ⟨Bool.not_eq_true _ ▸ (by simpa using hf), hg, h⟩
  · rcases verifyPrediction_period_cases (entryAfterPush e addr)
        (observedDelta e addr) with ⟨h, -⟩ | ⟨h, -, -⟩
    · left; rw [h]; rfl
    · right; left; exact h

theorem operateStep_period_mem (thr : Int) (occ : ℚ) (e : FourierEntry)
    (addr : Nat) :
    (operateStep thr occ e addr).1.period = e.period ∨
    (operateStep thr occ e addr).1.period = 0 ∨
    (fastPathReady (pushedBuf e addr) = false ∧
     (DELTA_BUFF_SIZE ≤ (pushedBuf e addr).length ∧
      (e.access_cnt + 1) % 4 = 0) ∧
     (operateStep thr occ e addr).1.period = (detect (pushedBuf e addr)).1) := by
  have h := preGate_period_mem thr e addr
  unfold operateStep
  rw [applyGate_period]
  exact h

theorem preGate_stability_cold (thr : Int) (e : FourierEntry) (addr : Nat)
    (hp : e.has_prediction = false) :
    (preGate thr e addr).1.stability = e.stability ∨
    (preGate thr e addr).1.stability = e.stability + 1 ∨
    ((preGate thr e addr).1.stability = 1 ∧
     (preGate thr e addr).1.period ≠ e.period) := by
  have hv : verifyPrediction (entryAfterPush e addr) (observedDelta e addr) =
      entryAfterPush e addr :=
    verifyPrediction_of_not_pending _ _ hp
  dsimp only [preGate]
  split_ifs with hf hg
  · left; rw [hv]; rfl
  · rw [hv]
    rcases spectralUpdate_stability_cases thr (pushedBuf e addr)
        (entryAfterPush e addr) with h | h | ⟨h1, h2, -⟩
    · left; rw [h]; rfl
    · right; left; rw [h]; rfl
    · right; right; exact ⟨h1, h2⟩
  · left; rw [hv]; rfl

theorem operateStep_stability_cold (thr : Int) (occ : ℚ) (e : FourierEntry)
    (addr : Nat) (hp : e.has_prediction = false) :
    (operateStep thr occ e addr).1.stability = e.stability ∨
    (operateStep thr occ e addr).1.stability = e.stability + 1 ∨
    ((operateStep thr occ e addr).1.stability = 1 ∧
     (operateStep thr occ e addr).1.period ≠ e.period) := by
  have h := preGate_stability_cold thr e addr hp
  unfold operateStep
  rw [applyGate_stability, applyGate_period]
  exact h

/-! ## Table lemmas -/

theorem operateExisting_none (thr : Int) (occ : ℚ) (key addr : Nat) :
    ∀ tbl : List FourierEntry, (∀ en ∈ tbl, en.ip_tag ≠ key) →
      operateExisting thr occ key addr tbl = none := by
  intro tbl
  induction tbl with
  | nil => intro _; rfl
  | cons en rest ih =>
    intro h
    have hk : (en.ip_tag == key) = false := by
      simpa using h en (List.mem_cons_self _ _)
    have hr := ih (fun x hx => h x (List.mem_cons_of_mem _ hx))
    simp [operateExisting, hk, hr]

theorem operateExisting_some (thr : Int) (occ : ℚ) (key addr : Nat) :
    ∀ (tbl : List FourierEntry) (res : List FourierEntry × Option PrefetchRequest),
      operateExisting thr occ key addr tbl = some res →
      res.1.map (fun x => x.ip_tag) = tbl.map (fun x => x.ip_tag) ∧
      (∃ en ∈ tbl, res.2 = (operateStep thr occ en addr).2) ∧
      (∀ x ∈ res.1, x ∈ tbl ∨ ∃ en ∈ tbl, x = (operateStep thr occ en addr).1) := by
  intro tbl
  induction tbl with
  | nil => intro res h; simp [operateExisting] at h
  | cons en rest ih =>
    intro res h
    by_cases hk : (en.ip_tag == key) = true
    · rw [operateExisting, if_pos hk] at h
      obtain rfl := (Option.some.injEq _ _).mp h.symm
      refine ⟨by simp, ⟨en, List.mem_cons_self _ _, rfl⟩, ?_⟩
      intro x hx
      rcases List.mem_cons.mp hx with rfl | hx
      · exact Or.inr ⟨en, List.mem_cons_self _ _, rfl⟩
      · exact Or.inl (List.mem_cons_of_mem _ hx)
    · rw [operateExisting, if_neg hk] at h
      cases hrec : operateExisting thr occ key addr rest with
      | none => rw [hrec] at h; simp at h
      | some r2 =>
        rw [hrec] at h
        simp only [Option.some.injEq] at h
        obtain rfl := h.symm
        obtain ⟨hmap, ⟨en2, hen2, hout⟩, hmem⟩ := ih r2 hrec
        refine ⟨by simp [hmap], ⟨en2, List.mem_cons_of_mem _ hen2, hout⟩, ?_⟩
        intro x hx
        rcases List.mem_cons.mp hx with rfl | hx
        · exact Or.inl (List.mem_cons_self _ _)
        · rcases hmem x hx with h' | ⟨en3, hen3, h3⟩
          · exact Or.inl (List.mem_cons_of_mem _ h')
          · exact Or.inr ⟨en3, List.mem_cons_of_mem _ hen3, h3⟩

theorem operateExisting_length (thr : Int) (occ : ℚ) (key addr : Nat)
    (tbl : List FourierEntry) (res : List FourierEntry × Option PrefetchRequest)
    (h : operateExisting thr occ key addr tbl = some res) :
    res.1.length = tbl.length := by
  have hm := (operateExisting_some thr occ key addr tbl res h).1
  have := congrArg List.length hm
  simpa using this

/-! ## Hash injectivity -/

theorem hashIP_testBit (x i : Nat) :
    (hashIP x).testBit i =
      ((x.testBit i).xor ((x.testBit (2 + i)).xor (x.testBit (5 + i)))) := by
  simp [hashIP, Nat.testBit_xor, Nat.testBit_shiftRight, Bool.xor_assoc]

theorem hashIP_injective : ∀ a b : Nat, hashIP a = hashIP b → a = b := by
  intro a b h
  by_contra hne
  have hd : a ^^^ b ≠ 0 := fun h0 => hne (Nat.xor_eq_zero.mp h0)
  obtain ⟨i, hi, hj⟩ := Nat.exists_most_significant_bit hd
  have h2 : a.testBit (2 + i) = b.testBit (2 + i) := by
    have hz := hj (2 + i) (by omega)
    rw [Nat.testBit_xor] at hz
    revert hz
    cases a.testBit (2 + i) <;> cases b.testBit (2 + i) <;> simp
  have h5 : a.testBit (5 + i) = b.testBit (5 + i) := by
    have hz := hj (5 + i) (by omega)
    rw [Nat.testBit_xor] at hz
    revert hz
    cases a.testBit (5 + i) <;> cases b.testBit (5 + i) <;> simp
  have hab : a.testBit i ≠ b.testBit i := by
    intro he
    rw [Nat.testBit_xor, he] at hi
    simp at hi
  have hbit := congrArg (fun n => Nat.testBit n i) h
  simp only [] at hbit
  rw [hashIP_testBit, hashIP_testBit, h2, h5] at hbit
  apply hab
  revert hbit
  cases a.testBit i <;> cases b.testBit i <;>
    cases b.testBit (2 + i) <;> cases b.testBit (5 + i) <;> simp

/-! ## Period evolution along a stream, for every threshold -/

theorem runEntry_period_mem (S : List Nat) (h0 : (0 : Nat) ∈ S) :
    ∀ (addrs : List Nat) (thr : Int) (occ : ℚ) (e : FourierEntry),
      spectralBestsIn S (bufProj e) addrs = true → e.period ∈ S →
      (runEntry thr occ e addrs).period ∈ S := by
  intro addrs
  induction addrs with
  | nil => intro thr occ e _ hp; simpa [runEntry] using hp
  | cons a rest ih =>
    intro thr occ e hok hp
    rw [spectralBestsIn, Bool.and_eq_true] at hok
    obtain ⟨hhead, htail⟩ := hok
    have hrun : runEntry thr occ e (a :: rest) =
        runEntry thr occ (operateStep thr occ e a).1 rest := rfl
    rw [hrun]
    apply ih thr occ
    · rw [operateStep_bufProj]; exact htail
    · rcases operateStep_period_mem thr occ e a with h | h | ⟨hfast, hguard, hdet⟩
      · rw [h]; exact hp
      · rw [h]; exact h0
      · rw [hdet]
        have hb : (bufStep (bufProj e) a).buf = pushedBuf e a := rfl
        have hc : (bufStep (bufProj e) a).cnt = e.access_cnt + 1 := rfl
        rw [hb, hc, hfast] at hhead
        simp only [Bool.false_eq_true, if_false] at hhead
        rw [if_pos hguard] at hhead
        exact of_decide_eq_true hhead

/-! ## Reachable-table invariant

Under the gate of DESIGN.md step 8 a zero-initialized entry can never emit:
emission requires `confidence ≥ 3`, `confidence` only changes while a
pending prediction exists, and a pending prediction is only recorded on
emission.  Consequently every entry of every reachable table stays at
confidence 0 with no pending prediction. -/

def TableCold (tbl : List FourierEntry) : Prop :=
  ∀ en ∈ tbl, en.confidence = 0 ∧ en.has_prediction = false

theorem tableCold_preserved (thr : Int) (occ : ℚ) (tbl : List FourierEntry)
    (addr ip : Nat) (hit : Bool) (h : TableCold tbl) :
    TableCold (cacheOperate thr occ tbl addr ip hit).1 := by
  unfold cacheOperate
  cases hop : operateExisting thr occ (hashIP ip) addr tbl with
  | some res =>
    intro x hx
    obtain ⟨-, -, hmem⟩ := operateExisting_some thr occ (hashIP ip) addr tbl res hop
    rcases hmem x hx with hx' | ⟨en, hen, rfl⟩
    · exact h x hx'
    · obtain ⟨hc, hp⟩ := h en hen
      obtain ⟨h1, h2, -⟩ := operateStep_cold thr occ en addr hc hp
      exact ⟨h1, h2⟩
  | none =>
    intro x hx
    simp only [] at hx
    rcases List.mem_append.mp hx with hx' | hx'
    · split_ifs at hx' with hfull
      · exact h x (List.mem_of_mem_tail hx')
      · exact h x hx'
    · rw [List.mem_singleton] at hx'
      subst hx'
      exact ⟨rfl, rfl⟩

theorem reachable_cold (thr : Int) (tbl : List FourierEntry)
    (h : ReachableTable thr tbl) : TableCold tbl := by
  induction h with
  | base => intro x hx; cases hx
  | step occ tbl addr ip hit _ ih => exact tableCold_preserved _ _ _ _ _ _ ih

theorem reachable_no_emission (thr : Int) (occ : ℚ) (tbl : List FourierEntry)
    (h : ReachableTable thr tbl) (addr ip : Nat) (hit : Bool) :
    (cacheOperate thr occ tbl addr ip hit).2 = none := by
  have hcold := reachable_cold thr tbl h
  unfold cacheOperate
  cases hop : operateExisting thr occ (hashIP ip) addr tbl with
  | some res =>
    obtain ⟨-, ⟨en, hen, hout⟩, -⟩ :=
      operateExisting_some thr occ (hashIP ip) addr tbl res hop
    obtain ⟨hc, hp⟩ := hcold en hen
    obtain ⟨-, -, hnone⟩ := operateStep_cold thr occ en addr hc hp
    simpa [hout] using hnone
  | none => rfl

/-! ## Page-boundary lemma -/

theorem applyGate_page (occ : ℚ) (addr : Nat) (e2 : FourierEntry)
    (p : Option Int) (req : PrefetchRequest)
    (h : (applyGate occ addr e2 p).2 = some req) :
    req.target >>> LOG2_PAGE_SIZE = addr >>> LOG2_PAGE_SIZE := by
  cases p with
  | none => simp [applyGate] at h
  | some d =>
    dsimp only [applyGate] at h
    split_ifs at h <;>
      first
        | (exfalso; simp at h; done)
        | (obtain rfl : _ = req := (Option.some.injEq _ _).mp h
           assumption)

theorem operateExisting_isSome (thr : Int) (occ : ℚ) (key addr : Nat) :
    ∀ tbl : List FourierEntry, (∃ en ∈ tbl, en.ip_tag = key) →
      (operateExisting thr occ key addr tbl).isSome := by
  intro tbl
  induction tbl with
  | nil => rintro ⟨en, hen, -⟩; cases hen
  | cons en rest ih =>
    rintro ⟨x, hx, htag⟩
    rcases List.mem_cons.mp hx with rfl | hx'
    · rw [operateExisting, if_pos (by simpa using htag)]
      rfl
    · rw [operateExisting]
      split_ifs with hk
      · rfl
      · cases hrec : operateExisting thr occ key addr rest with
        | none =>
          have := ih ⟨x, hx', htag⟩
          rw [hrec] at this
          simp at this
        | some r2 => simp [hrec]

theorem preGate_snd_of_not_fast (thr : Int) (e : FourierEntry) (addr : Nat)
    (hfast : fastPathReady (pushedBuf e addr) = false) :
    (preGate thr e addr).2 = replayPredict (preGate thr e addr).1 := by
  dsimp only [preGate]
  rw [hfast]
  simp

theorem operateStep_none_of_pred_none (thr : Int) (occ : ℚ) (e : FourierEntry)
    (addr : Nat) (h : (preGate thr e addr).2 = none) :
    (operateStep thr occ e addr).2 = none ∧
    (operateStep thr occ e addr).1.has_prediction = false := by
  unfold operateStep
  rw [h]
  simp [applyGate]

theorem operateStep_none_of_low_confidence (thr : Int) (occ : ℚ)
    (e : FourierEntry) (addr : Nat)
    (h : (preGate thr e addr).1.confidence < CONF_ISSUE_MIN) :
    (operateStep thr occ e addr).2 = none ∧
    (operateStep thr occ e addr).1.has_prediction = false := by
  unfold operateStep
  cases hp : (preGate thr e addr).2 with
  | none => simp [applyGate]
  | some p => simp [applyGate, if_pos h]

/-! ## Claim theorems -/

set_option maxRecDepth 200000 in
/-- C1, counterexample: the delta stream `5, 0, 5, 0, 5, 0, 5, -20`
(repeating) is exactly periodic with fundamental period 8, a member of the
candidate set, and is sustained for 44 ≥ 36 accesses; yet with the most
permissive power threshold 0 the entry's period field ends at 2 — the
dominant second harmonic — not 8, refuting the claimed convergence to P. -/
theorem c1_period_convergence_counterexample :
    (runEntry 0 0 c1start c1addrs).period = 2 ∧
    ¬(runEntry 0 0 c1start c1addrs).period = 8 := by
  constructor
  · decide
  · decide

set_option maxRecDepth 200000 in
/-- C1, amended: for an exactly periodic stream the period field converges to
the candidate period of maximal Goertzel power over the buffered window,
which need not be the fundamental period P.  For the period-8 stream
`5, 0, 5, 0, 5, 0, 5, -20` sustained for 44 accesses, the period field is 0
or 2 under every power threshold, and under threshold 0 it is 2, with
`pattern` holding the most recent 2 deltas as of the last lock round. -/
theorem c1_period_convergence_amended :
    (∀ (thr : Int) (occ : ℚ),
      (runEntry thr occ c1start c1addrs).period = 0 ∨
      (runEntry thr occ c1start c1addrs).period = 2) ∧
    (runEntry 0 0 c1start c1addrs).period = 2 ∧
    (runEntry 0 0 c1start c1addrs).pattern.take 2 = [5, -20] := by
  refine ⟨?_, by decide, by decide⟩
  intro thr occ
  have hmem := runEntry_period_mem [0, 2] (by decide) c1addrs thr occ c1start
    (by decide) (by decide)
  simpa using hmem

/-- C2: every emitted prefetch request targets the same 4 KiB page as the
access that triggered it; a cross-page candidate is withheld inside the gate
and never reaches the emission branch. -/
theorem c2_same_page (thr : Int) (occ : ℚ) (tbl : List FourierEntry)
    (addr ip : Nat) (hit : Bool) (req : PrefetchRequest)
    (h : (cacheOperate thr occ tbl addr ip hit).2 = some req) :
    req.target >>> LOG2_PAGE_SIZE = addr >>> LOG2_PAGE_SIZE := by
  rcases hop : operateExisting thr occ (hashIP ip) addr tbl with _ | res
  · have hco : (cacheOperate thr occ tbl addr ip hit).2 = none := by
      unfold cacheOperate; rw [hop]
    rw [hco] at h
    cases h
  · have hco : cacheOperate thr occ tbl addr ip hit = res := by
      unfold cacheOperate; rw [hop]
    rw [hco] at h
    obtain ⟨-, ⟨en, -, hout⟩, -⟩ :=
      operateExisting_some thr occ (hashIP ip) addr tbl res hop
    rw [hout] at h
    unfold operateStep at h
    exact applyGate_page occ addr _ _ req h

/-- C2, witness: a concrete emission (stride-1 entry at confidence 3,
address 6400) produces target 6464, on the same page. -/
theorem c2_same_page_witness :
    (cacheOperate 0 0 [c2entry] 6400 5 false).2 =
      some (PrefetchRequest.mk 6464 false) ∧
    (PrefetchRequest.mk 6464 false).target >>> LOG2_PAGE_SIZE =
      (6400 : Nat) >>> LOG2_PAGE_SIZE :=
  ⟨by decide, c2_same_page 0 0 [c2entry] 6400 5 false _ (by decide)⟩

theorem operateStep_confidence_le (thr : Int) (occ : ℚ) (e : FourierEntry)
    (addr : Nat) (h : e.confidence ≤ CONF_MAX) :
    (operateStep thr occ e addr).1.confidence ≤ CONF_MAX := by
  unfold operateStep
  rw [applyGate_confidence]
  dsimp only [preGate]
  split_ifs <;> (try simp only [spectralUpdate_confidence]) <;>
    exact verifyPrediction_confidence_le _ _ h

/-- C3: the saturating confidence arithmetic keeps confidence within [0, 7]
across any access from any in-range state; and on every reachable entry,
stability never drops below 1 once it is at least 1 — the only stability
decrease is the reset to exactly 1, which happens together with a period
change.  (On reachable entries the confidence-zero hard reset can never
fire, because a pending prediction is only recorded on emission, which
requires confidence ≥ 3 — see C6.) -/
theorem c3_counter_invariants (thr : Int) (tbl : List FourierEntry)
    (hreach : ReachableTable thr tbl) :
    (∀ (e : FourierEntry) (occ : ℚ) (addr : Nat), e.confidence ≤ CONF_MAX →
      (operateStep thr occ e addr).1.confidence ≤ CONF_MAX) ∧
    ∀ en ∈ tbl, en.confidence ≤ CONF_MAX ∧
    ∀ (occ : ℚ) (addr : Nat),
      (operateStep thr occ en addr).1.confidence ≤ CONF_MAX ∧
      (1 ≤ en.stability → 1 ≤ (operateStep thr occ en addr).1.stability) ∧
      ((operateStep thr occ en addr).1.stability < en.stability →
        ((operateStep thr occ en addr).1.stability = 1 ∧
         (operateStep thr occ en addr).1.period ≠ en.period)) := by
  refine ⟨fun e occ addr h => operateStep_confidence_le thr occ e addr h, ?_⟩
  intro en hen
  obtain ⟨hc, hp⟩ := reachable_cold thr tbl hreach en hen
  refine ⟨by simp [hc, CONF_MAX], ?_⟩
  intro occ addr
  obtain ⟨hc', -, -⟩ := operateStep_cold thr occ en addr hc hp
  refine ⟨by simp [hc', CONF_MAX], ?_, ?_⟩
  · intro h1
    rcases operateStep_stability_cold thr occ en addr hp with h | h | ⟨h, -⟩ <;>
      omega
  · intro hlt
    rcases operateStep_stability_cold thr occ en addr hp with h | h | ⟨h1, h2⟩
    · omega
    · omega
    · exact ⟨h1, h2⟩

/-- C3, witness: the invariants instantiated on the reachable one-entry table
produced by a first access of IP 7. -/
theorem c3_counter_invariants_witness :
    (freshEntry 6 0).confidence ≤ CONF_MAX ∧
    (operateStep 0 0 (freshEntry 6 0) 64).1.confidence ≤ CONF_MAX := by
  have hreach : ReachableTable 0 (cacheOperate 0 0 [] 0 7 false).1 :=
    ReachableTable.step 0 [] 0 7 false ReachableTable.base
  have H := (c3_counter_invariants 0 (cacheOperate 0 0 [] 0 7 false).1 hreach).2
    (freshEntry 6 0) (by decide)
  exact ⟨H.1, (H.2 0 64).1⟩

set_option maxRecDepth 200000 in
/-- C4, counterexample: from a locked entry at confidence 5, three
consecutive mispredicted accesses leave confidence at 1 — not 0 — and the
period locked at 2: after the second mismatch confidence is 1 < 3, so the
prefetch is withheld, no new prediction is recorded, and the third round has
no prediction to verify.  The claimed drop to 0 with a period clear within 3
rounds does not happen. -/
theorem c4_mismatch_counterexample :
    (runEntry 0 0 c4entry [6464, 6528, 6592]).confidence = 1 ∧
    (runEntry 0 0 c4entry [6464, 6528, 6592]).period = 2 ∧
    (runEntry 0 0 c4entry [6464, 6528, 6592]).has_prediction = false := by
  refine ⟨by decide, by decide, by decide⟩

set_option maxRecDepth 200000 in
/-- C4, amended: a verified mismatch that drives confidence to exactly 0
does clear period, stability and pattern in that same step; but starting
from confidence 5, consecutive mispredicted accesses reach only 5 → 3 → 1:
once confidence falls below 3 no further prediction is recorded, so a third
mismatched prediction never occurs and the hard reset is not reached. -/
theorem c4_mismatch_amended :
    (∀ (e : FourierEntry) (d : Int),
      e.has_prediction = true → (d == e.last_prediction) = false →
      e.confidence ≤ 2 →
      (verifyPrediction e d).confidence = 0 ∧
      (verifyPrediction e d).period = 0 ∧
      (verifyPrediction e d).stability = 0 ∧
      (verifyPrediction e d).pattern = List.replicate MAX_PERIOD 0) ∧
    ((runEntry 0 0 c4entry [6464, 6528, 6592]).confidence = 1 ∧
     (runEntry 0 0 c4entry [6464, 6528, 6592]).period = 2) := by
  constructor
  · intro e d h1 h2 h3
    have hc : e.confidence - 2 = 0 := by omega
    simp [verifyPrediction, h1, h2, hc, hardReset]
  · exact ⟨by decide, by decide⟩

/-- C4, witness: the hard-reset mechanism fired on a concrete entry with a
pending prediction of 7, confidence 1, observing delta 1. -/
theorem c4_mismatch_amended_witness :
    (verifyPrediction c4resetEntry 1).confidence = 0 ∧
    (verifyPrediction c4resetEntry 1).period = 0 ∧
    (verifyPrediction c4resetEntry 1).stability = 0 := by
  have H := c4_mismatch_amended.1 c4resetEntry 1 rfl (by decide) (by decide)
  exact ⟨H.1, H.2.1, H.2.2.1⟩

/-- C5: the tracker table never exceeds 256 entries; a hit leaves the
insertion order (and hence future eviction order) untouched regardless of
recency; and inserting a new tag into a full table evicts exactly the
earliest-inserted entry, the surviving entries keeping their order. -/
theorem c5_fifo_eviction (thr : Int) (occ : ℚ) (tbl : List FourierEntry)
    (addr ip : Nat) (hit : Bool) :
    (tbl.length ≤ TRACKER_TABLE_SIZE →
      (cacheOperate thr occ tbl addr ip hit).1.length ≤ TRACKER_TABLE_SIZE) ∧
    ((∃ en ∈ tbl, en.ip_tag = hashIP ip) →
      (cacheOperate thr occ tbl addr ip hit).1.map (fun x => x.ip_tag) =
        tbl.map (fun x => x.ip_tag)) ∧
    (tbl.length = TRACKER_TABLE_SIZE →
      (∀ en ∈ tbl, en.ip_tag ≠ hashIP ip) →
      (cacheOperate thr occ tbl addr ip hit).1 =
        tbl.tail ++ [freshEntry (hashIP ip) (cacheLineOf addr)]) := by
  rcases hop : operateExisting thr occ (hashIP ip) addr tbl with _ | res
  · have hco : (cacheOperate thr occ tbl addr ip hit).1 =
        (if TRACKER_TABLE_SIZE ≤ tbl.length then tbl.tail else tbl) ++
          [freshEntry (hashIP ip) (cacheLineOf addr)] := by
      unfold cacheOperate; rw [hop]
    refine ⟨?_, ?_, ?_⟩
    · intro hlen
      have hts : TRACKER_TABLE_SIZE = 256 := rfl
      rw [hco, List.length_append]
      rw [hts] at hlen ⊢
      split_ifs with hfull
      · have htl : tbl.tail.length = tbl.length - 1 := by simp
        rw [htl]
        simp only [List.length_cons, List.length_nil]
        omega
      · simp only [List.length_cons, List.length_nil]
        omega
    · intro hex
      exfalso
      have := operateExisting_isSome thr occ (hashIP ip) addr tbl hex
      rw [hop] at this
      simp at this
    · intro hfull _
      rw [hco, if_pos (by omega)]
  · have hco : (cacheOperate thr occ tbl addr ip hit).1 = res.1 := by
      unfold cacheOperate; rw [hop]
    obtain ⟨hmap, -, -⟩ :=
      operateExisting_some thr occ (hashIP ip) addr tbl res hop
    refine ⟨?_, ?_, ?_⟩
    · intro hlen
      rw [hco, operateExisting_length thr occ _ _ tbl res hop]
      exact hlen
    · intro _
      rw [hco]
      exact hmap
    · intro _ habs
      exfalso
      have := operateExisting_none thr occ (hashIP ip) addr tbl habs
      rw [hop] at this
      cases this

set_option maxRecDepth 200000 in
/-- C5, witness: on the concrete full table with tags 0..255, the access of
the fresh IP 300 (hashed tag 366) evicts exactly the earliest entry. -/
theorem c5_fifo_eviction_witness :
    (cacheOperate 0 0 c5table 0 300 false).1 =
      c5table.tail ++ [freshEntry (hashIP 300) (cacheLineOf 0)] :=
  (c5_fifo_eviction 0 0 c5table 0 300 false).2.2 (by decide) (by decide)

set_option maxRecDepth 200000 in
/-- C6: on the constant stride-4 stream, the 5th access has the fast path
ready (buffer `[4, 4, 4, 4]`) but the design's gate withholds every
prefetch: the outputs of all five accesses are `none`, confidence is still 0
and the spectral path never locked a period.  Emission requires
`confidence ≥ 3`, confidence only changes while a pending prediction exists,
and a pending prediction is only recorded on emission — so from the
zero-initialized state no prefetch is ever issued, contradicting the claimed
request at the 5th access (and DESIGN.md's Phase-1 expectation of
ip_stride-like behaviour). -/
theorem c6_constant_stride_no_request :
    (runTableOuts 0 0 [] c6events).2 = [none, none, none, none, none] ∧
    (runTableOuts 0 0 [] c6events).1.map (fun x => x.deltas) = [[4, 4, 4, 4]] ∧
    (runTableOuts 0 0 [] c6events).1.map (fun x => fastPathReady x.deltas) =
      [true] ∧
    (runTableOuts 0 0 [] c6events).1.map (fun x => x.confidence) = [0] ∧
    (runTableOuts 0 0 [] c6events).1.map (fun x => x.period) = [0] := by
  refine ⟨by decide, by decide, by decide, by decide, by decide⟩

set_option maxHeartbeats 1000000 in
/-- C7: `detect` returns a candidate period whose Goertzel power is maximal
among all six candidates, together with that power; on ties the smaller
candidate period wins (strict argmax over the ascending candidate list). -/
theorem c7_detect_argmax (buf : List Int) (p : Nat) (w : Int)
    (h : detect buf = (p, w)) :
    p ∈ FREQ_PERIODS ∧ w = goertzelNum buf (coeffN p) ∧
    ∀ q ∈ FREQ_PERIODS,
      goertzelNum buf (coeffN q) ≤ w ∧
      (goertzelNum buf (coeffN q) = w → p ≤ q) := by
  simp only [detect, FREQ_PERIODS, List.foldl_cons, List.foldl_nil] at h
  split_ifs at h <;>
    (obtain ⟨rfl, rfl⟩ := Prod.mk.injEq _ _ _ _ ▸ h
     refine ⟨by decide, rfl, ?_⟩
     intro q hq
     fin_cases hq <;> exact ⟨by omega, fun hw => by omega⟩)

set_option maxRecDepth 200000 in
/-- C7, witness: on the all-zero full buffer every candidate's power is 0, a
six-way tie, and `detect` selects the smallest period 2. -/
theorem c7_detect_argmax_witness :
    detect (List.replicate DELTA_BUFF_SIZE 0) = (2, 0) ∧
    goertzelNum (List.replicate DELTA_BUFF_SIZE 0) (coeffN 3) ≤ 0 ∧
    (2 : Nat) ≤ 3 := by
  have H := c7_detect_argmax (List.replicate DELTA_BUFF_SIZE 0) 2 0 (by decide)
  obtain ⟨-, -, hq⟩ := H
  have h3 := hq 3 (by decide)
  exact ⟨by decide, h3.1, h3.2 (by decide)⟩

/-- C8: when the period is 0 the replay path yields no predicted delta at
all — the `pattern[phase % period]` lookup is guarded by `period ≠ 0`, so no
modulo-by-zero is reachable — and an access that ends with period 0 without
the fast path emits nothing and clears the pending-prediction flag. -/
theorem c8_no_mod_zero :
    (∀ e : FourierEntry, e.period = 0 → replayPredict e = none) ∧
    (∀ (thr : Int) (occ : ℚ) (e : FourierEntry) (addr : Nat),
      fastPathReady (pushedBuf e addr) = false →
      (operateStep thr occ e addr).1.period = 0 →
      (operateStep thr occ e addr).2 = none ∧
      (operateStep thr occ e addr).1.has_prediction = false) := by
  constructor
  · intro e h
    simp [replayPredict, h]
  · intro thr occ e addr hfast hper
    have hper' : (preGate thr e addr).1.period = 0 := by
      have h2 := hper
      unfold operateStep at h2
      rwa [applyGate_period] at h2
    have hpred : (preGate thr e addr).2 = none := by
      rw [preGate_snd_of_not_fast thr e addr hfast]
      simp [replayPredict, hper']
    exact operateStep_none_of_pred_none thr occ e addr hpred

/-- C8, witness: the replay path of a fresh (period-0) entry yields no
prediction, and its first delta-observing access emits nothing. -/
theorem c8_no_mod_zero_witness :
    replayPredict (freshEntry 0 0) = none ∧
    (operateStep 0 0 (freshEntry 0 0) 0).2 = none :=
  ⟨c8_no_mod_zero.1 (freshEntry 0 0) rfl,
   (c8_no_mod_zero.2 0 0 (freshEntry 0 0) 0 (by decide) (by decide)).1⟩

/-- C9: whenever no delta is predicted or the post-verification confidence
is below 3, the round withholds the prefetch and clears `has_prediction`, so
the next round's verification is skipped. -/
theorem c9_withhold_clears_pending (thr : Int) (occ : ℚ) (e : FourierEntry)
    (addr : Nat)
    (h : (preGate thr e addr).2 = none ∨
         (preGate thr e addr).1.confidence < CONF_ISSUE_MIN) :
    (operateStep thr occ e addr).2 = none ∧
    (operateStep thr occ e addr).1.has_prediction = false := by
  rcases h with h | h
  · exact operateStep_none_of_pred_none thr occ e addr h
  · exact operateStep_none_of_low_confidence thr occ e addr h

/-- C9, witness: a fresh entry's second access (no prediction available)
withholds and leaves `has_prediction` false. -/
theorem c9_withhold_clears_pending_witness :
    (operateStep 0 0 (freshEntry 0 0) 128).2 = none ∧
    (operateStep 0 0 (freshEntry 0 0) 128).1.has_prediction = false :=
  c9_withhold_clears_pending 0 0 (freshEntry 0 0) 128 (Or.inl (by decide))

/-- C10, counterexample: there are no two distinct 64-bit instruction
pointers that hash to the same table key: `ip ^ (ip >> 2) ^ (ip >> 5)` is
injective (it is unipotent linear map over GF(2)), so no two distinct IPs
ever share a tracker entry, its delta history, confidence, or pattern. -/
theorem c10_collision_counterexample :
    ¬∃ a b : Nat, a < 2 ^ 64 ∧ b < 2 ^ 64 ∧ a ≠ b ∧ hashIP a = hashIP b := by
  rintro ⟨a, b, -, -, hne, h⟩
  exact hne (hashIP_injective a b h)

/-- C10, amended: entry lookup keys the table by
`hashIP ip = ip ^ (ip >> 2) ^ (ip >> 5)` (a fresh IP's entry carries exactly
that tag), and the hash is injective, so distinct instruction pointers always
resolve to distinct tracker entries. -/
theorem c10_hash_key_amended :
    (∀ a b : Nat, hashIP a = hashIP b → a = b) ∧
    (∀ (thr : Int) (occ : ℚ) (addr ip : Nat) (hit : Bool),
      (cacheOperate thr occ [] addr ip hit).1.map (fun x => x.ip_tag) =
        [hashIP ip]) := by
  refine ⟨hashIP_injective, ?_⟩
  intro thr occ addr ip hit
  rfl

/-- C10, witness: the amended theorem at IP 5: the singleton table created
by a first access is keyed by `hashIP 5`, and injectivity instantiated at
equal arguments. -/
theorem c10_hash_key_amended_witness :
    (cacheOperate 0 0 [] 0 5 false).1.map (fun x => x.ip_tag) = [hashIP 5] ∧
    (5 : Nat) = 5 :=
  ⟨c10_hash_key_amended.2 0 0 0 5 false, c10_hash_key_amended.1 5 5 rfl⟩
